import Mathlib

/- Verification development for the voice-agent client repository.
   The pipeline logic of src/App.tsx (message handling, playback scheduling,
   interruption, teardown, capture gating) is embedded shallowly, together
   with models of the PCM and base64 helpers that App.tsx imports from
   src/utils/audioUtils.ts. -/

namespace VoiceAgent

/-- Modelled from the spec: App.tsx imports `createPcmBlob`, `decode` and
`decodeAudioData` from src/utils/audioUtils.ts, a file that is not present
under src/. Spec section 4.1: the encoder converts each float sample in
[-1.0, 1.0] to a little-endian signed 16-bit integer, clamped to the
representable range. The spec fixes no rounding mode; truncation toward
negative infinity (floor) is used. -/
def floatToInt16 (s : ℚ) : ℤ := max (-32768) (min 32767 ⌊s * 32768⌋)

/-- Modelled from the spec: little-endian two-byte serialization of one
signed 16-bit sample, two's complement (spec section 4.1, "little-endian
signed 16-bit integer (linear PCM)"). -/
def int16ToBytes (q : ℤ) : List ℕ :=
  [(q % 65536).toNat % 256, (q % 65536).toNat / 256]

/-- Modelled from the spec: read back one little-endian signed 16-bit sample
from two bytes (spec section 4.2, "a binary/base64 payload of little-endian
16-bit PCM samples"). -/
def bytesToInt16 (lo hi : ℕ) : ℤ :=
  if lo + 256 * hi < 32768 then ((lo + 256 * hi : ℕ) : ℤ)
  else ((lo + 256 * hi : ℕ) : ℤ) - 65536

/-- Modelled from the spec: deserialize a byte stream into 16-bit samples,
two bytes per sample; a trailing odd byte is ignored and an empty payload
yields the empty sample list (spec section 4.2 tolerates empty payloads). -/
def decodePcmBytes : List ℕ → List ℤ
  | lo :: hi :: rest => bytesToInt16 lo hi :: decodePcmBytes rest
  | _ => []

/-- Standard base64 alphabet, used by the transport encoding of
src/utils/audioUtils.ts (spec section 4.1: "base64-encoded for transport"). -/
def base64Alphabet : List Char :=
  String.toList ("ABCDEFGHIJKLMNOPQRSTUVWXYZabcdefghijklmnopqrstuvwxyz0123456789+/")

/-- Character of the base64 alphabet at a sextet value. -/
def b64Char (n : ℕ) : Char := base64Alphabet.getD n 'A'

/-- Sextet value of a base64 character. -/
def b64Val (c : Char) : ℕ := base64Alphabet.indexOf c

/-- Modelled from the spec: base64 encoding of a byte list, three bytes to
four characters with trailing padding (the `encode` helper of
src/utils/audioUtils.ts, absent from src/). -/
def encodeBase64Chars : List ℕ → List Char
  | b0 :: b1 :: b2 :: rest =>
      b64Char (b0 / 4) ::
      b64Char (b0 % 4 * 16 + b1 / 16) ::
      b64Char (b1 % 16 * 4 + b2 / 64) ::
      b64Char (b2 % 64) :: encodeBase64Chars rest
  | [b0, b1] =>
      [b64Char (b0 / 4), b64Char (b0 % 4 * 16 + b1 / 16), b64Char (b1 % 16 * 4), '=']
  | [b0] =>
      [b64Char (b0 / 4), b64Char (b0 % 4 * 16), '=', '=']
  | [] => []

/-- Modelled from the spec: base64 decoding of a character list, four
characters to up to three bytes, honoring trailing padding (the `decode`
helper of src/utils/audioUtils.ts, absent from src/). -/
def decodeBase64Chars : List Char → List ℕ
  | c0 :: c1 :: c2 :: c3 :: rest =>
      if c2 = '=' then
        [b64Val c0 * 4 + b64Val c1 / 16]
      else if c3 = '=' then
        [b64Val c0 * 4 + b64Val c1 / 16, b64Val c1 % 16 * 16 + b64Val c2 / 4]
      else
        (b64Val c0 * 4 + b64Val c1 / 16) ::
        (b64Val c1 % 16 * 16 + b64Val c2 / 4) ::
        (b64Val c2 % 4 * 64 + b64Val c3) :: decodeBase64Chars rest
  | _ => []

/-- Modelled from the spec: `encode` of src/utils/audioUtils.ts, bytes to a
base64 string. -/
def encode (bs : List ℕ) : String := String.mk (encodeBase64Chars bs)

/-- Modelled from the spec: `decode` of src/utils/audioUtils.ts, base64
string back to bytes (App.tsx line 224 applies it to the inbound inline
audio payload). -/
def decode (s : String) : List ℕ := decodeBase64Chars s.toList

/-- EncodedBlob of spec section 3: mime type plus base64 payload. -/
structure PcmBlob where
  mimeType : String
  data : String
deriving DecidableEq

/-- Modelled from the spec: `createPcmBlob` of src/utils/audioUtils.ts
(spec section 4.1): scale and clamp each float sample to signed 16-bit,
serialize little-endian, base64-encode, and attach the PCM mime type. -/
def createPcmBlob (samples : List ℚ) : PcmBlob :=
  ⟨"audio/pcm;rate=16000", encode ((samples.map floatToInt16).flatMap int16ToBytes)⟩

/-- Decoded audio buffer: float samples at a fixed sample rate (mono), as
produced by `decodeAudioData` and consumed by the playback scheduler. -/
structure AudioBuffer where
  samples : List ℚ
  sampleRate : ℕ
deriving DecidableEq

/-- Duration in seconds of a decoded buffer, as read from
`audioBuffer.duration` by App.tsx line 234. -/
def AudioBuffer.duration (b : AudioBuffer) : ℚ :=
  (b.samples.length : ℚ) / (b.sampleRate : ℚ)

/-- Modelled from the spec: `decodeAudioData` of src/utils/audioUtils.ts
(spec section 4.2): convert little-endian 16-bit PCM bytes to float samples
normalized to [-1.0, 1.0] via int16 / 32768.0, at the given sample rate.
Modelled for the single-channel layout used by this app (App.tsx calls it
with numChannels = 1). -/
def decodeAudioData (data : List ℕ) (sampleRate : ℕ) (numChannels : ℕ) : AudioBuffer :=
  ⟨(decodePcmBytes data).map (fun q : ℤ => (q : ℚ) / 32768), sampleRate⟩

/-- Sender tag of a persisted transcript record (src/types.ts). -/
inductive Sender
  | user
  | ai
deriving DecidableEq

/-- Persisted transcript record (src/types.ts `Transcription`). -/
structure Transcription where
  text : String
  sender : Sender
  timestamp : ℕ
deriving DecidableEq

/-- Live playback source handle: one `AudioBufferSourceNode` created in the
audio branch of `onmessage` (App.tsx lines 225-235), identified by creation
order, remembering its scheduled start time and duration, plus whether
`stop()` has been called on it. -/
structure PlaybackSource where
  id : ℕ
  startTime : ℚ
  duration : ℚ
  stopped : Bool
deriving DecidableEq

/-- Observable audio-graph events issued while handling a message:
`source.start(time)` calls (with the scheduled buffer duration) and
`source.stop()` calls. -/
inductive Event
  | start (id : ℕ) (time : ℚ) (dur : ℚ)
  | stop (id : ℕ)
deriving DecidableEq

/-- One inbound live-session message as read by `onmessage` (App.tsx lines
218-265): an optional inline audio payload (already decoded to a buffer, the
handler awaits `decodeAudioData` before using it), optional input/output
transcript fragments, and the turn-complete and interruption markers. -/
structure ServerMessage where
  audio : Option AudioBuffer
  inputTranscription : Option String
  outputTranscription : Option String
  turnComplete : Bool
  interrupted : Bool

/-- Per-session mutable state of App.tsx: the session and audio/video refs,
the playback scheduler state (timeline cursor `nextStartTimeRef`, live
source set `sourcesRef`, source creation counter), the transcript
accumulators, the persisted transcript list, and the active/camera flags. -/
structure AppState where
  session : Option Unit
  inputCtx : Option Unit
  outputCtx : Option Unit
  inputGain : Option Unit
  outputGain : Option Unit
  videoInterval : Option ℕ
  videoStream : Option Unit
  nextStartTime : ℚ
  sources : List PlaybackSource
  nextId : ℕ
  currentInput : String
  currentOutput : String
  transcriptions : List Transcription
  isActive : Bool
  isCameraOn : Bool
deriving DecidableEq

/-- Audio branch of `onmessage` (App.tsx lines 219-236): when the message
carries an inline audio payload and the output context ref is non-null,
bump the cursor to `max(cursor, ctx.currentTime)`, create a source for the
decoded buffer, start it at the cursor, advance the cursor by the buffer
duration, and add the source to the live set. `t` is `ctx.currentTime`. -/
def audioBranch (σ : AppState) (audio : Option AudioBuffer) (t : ℚ) : AppState × List Event :=
  match audio with
  | none => (σ, [])
  | some buf =>
    match σ.outputCtx with
    | none => (σ, [])
    | some _ =>
      let cursor := max σ.nextStartTime t
      ({ σ with
          nextStartTime := cursor + buf.duration,
          sources := σ.sources ++ [⟨σ.nextId, cursor, buf.duration, false⟩],
          nextId := σ.nextId + 1 },
       [Event.start σ.nextId cursor buf.duration])

/-- Input-transcription branch of `onmessage` (App.tsx lines 238-240):
append the fragment to the input accumulator. -/
def inputTransBranch (σ : AppState) (frag : Option String) : AppState :=
  match frag with
  | some s => { σ with currentInput := σ.currentInput ++ s }
  | none => σ

/-- Output-transcription branch of `onmessage` (App.tsx lines 241-243):
append the fragment to the output accumulator. -/
def outputTransBranch (σ : AppState) (frag : Option String) : AppState :=
  match frag with
  | some s => { σ with currentOutput := σ.currentOutput ++ s }
  | none => σ

/-- Turn-complete branch of `onmessage` (App.tsx lines 245-257): when the
turn-complete marker is set, persist a record for each non-empty
accumulator (user first, then ai, both timestamped with Date.now()), then
reset both accumulators unconditionally. -/
def turnCompleteBranch (σ : AppState) (tc : Bool) (now : ℕ) : AppState :=
  if tc then
    let u := σ.currentInput
    let a := σ.currentOutput
    let σ₁ :=
      if u ≠ "" ∨ a ≠ "" then
        { σ with transcriptions := σ.transcriptions ++
            ((if u ≠ "" then [⟨u, Sender.user, now⟩] else []) ++
             (if a ≠ "" then [⟨a, Sender.ai, now⟩] else [])) }
      else σ
    { σ₁ with currentInput := "", currentOutput := "" }
  else σ

/-- Interruption branch of `onmessage` (App.tsx lines 259-265): when the
interruption marker is set, call `stop()` on every live source (each call
wrapped in try/catch, best-effort), clear the live set, and reset the
timeline cursor to 0. -/
def interruptBranch (σ : AppState) (intr : Bool) : AppState × List Event :=
  if intr then
    ({ σ with sources := [], nextStartTime := 0 },
     σ.sources.map (fun s => Event.stop s.id))
  else (σ, [])

/-- The `onmessage` handler of App.tsx (lines 218-265), branches in source
order: audio scheduling, input transcription, output transcription,
turn-complete flush, interruption. `t` is the output clock reading
`ctx.currentTime` while this message is handled and `now` is Date.now().
Returns the new state and the audio-graph events issued. -/
def onmessage (σ : AppState) (m : ServerMessage) (t : ℚ) (now : ℕ) : AppState × List Event :=
  let p := audioBranch σ m.audio t
  let σ₂ := inputTransBranch p.1 m.inputTranscription
  let σ₃ := outputTransBranch σ₂ m.outputTranscription
  let σ₄ := turnCompleteBranch σ₃ m.turnComplete now
  let q := interruptBranch σ₄ m.interrupted
  (q.1, p.2 ++ q.2)

/-- A message carrying only an inline audio payload. -/
def audioMessage (buf : AudioBuffer) : ServerMessage := ⟨some buf, none, none, false, false⟩

/-- Process a sequence of audio-only messages in order; each entry pairs the
decoded buffer with the output clock reading at the time its message is
handled. Returns the final state and the concatenated event trace. -/
def playSeq (σ : AppState) : List (AudioBuffer × ℚ) → AppState × List Event
  | [] => (σ, [])
  | (buf, t) :: rest =>
      let p := onmessage σ (audioMessage buf) t 0
      let q := playSeq p.1 rest
      (q.1, p.2 ++ q.2)

/-- Arrival keeps pace with consumption: when each message is handled, the
output clock has not passed the timeline cursor accumulated so far. -/
def keepsPace (c : ℚ) : List (AudioBuffer × ℚ) → Bool
  | [] => true
  | (buf, t) :: rest => decide (t ≤ c) && keepsPace (c + buf.duration) rest

/-- Total duration of a buffer sequence. -/
def sumDur : List (AudioBuffer × ℚ) → ℚ
  | [] => 0
  | (buf, _) :: rest => buf.duration + sumDur rest

/-- Spec-side description of gapless scheduling (spec section 8): source ids
count up from `id` and the i-th buffer starts exactly at `c` plus the sum of
the durations of the buffers before it. -/
def startEvents (id : ℕ) (c : ℚ) : List (AudioBuffer × ℚ) → List Event
  | [] => []
  | (buf, _) :: rest => Event.start id c buf.duration :: startEvents (id + 1) (c + buf.duration) rest

/-- Session state right after a successful start: refs populated, cursor at
0, no live sources, empty accumulators and transcript list. -/
def initialState : AppState :=
  { session := some (), inputCtx := some (), outputCtx := some (),
    inputGain := some (), outputGain := some (),
    videoInterval := none, videoStream := none,
    nextStartTime := 0, sources := [], nextId := 0,
    currentInput := "", currentOutput := "", transcriptions := [],
    isActive := true, isCameraOn := false }

/-- Stopping an `AudioBufferSourceNode`: throws InvalidStateError when the
node was already stopped, otherwise marks it stopped. -/
def stopPlayback (src : PlaybackSource) : Except String PlaybackSource :=
  if src.stopped then Except.error ("InvalidStateError")
  else Except.ok { src with stopped := true }

/-- Best-effort stop, mirroring the code pattern of wrapping the call in
try/catch with an empty handler (App.tsx lines 116-118). -/
def tryStop (src : PlaybackSource) : PlaybackSource :=
  match stopPlayback src with
  | Except.ok s => s
  | Except.error _ => src

/-- The `stopSession` teardown of App.tsx (lines 92-122), statements in
source order: close and null the session ref; close and null both audio
context refs (an AudioContext close on a closed context surfaces as an
asynchronous promise rejection, never as a synchronous throw, and the
rejection is not observed here); clear and null the video interval; stop
the video stream tracks and null the ref; best-effort stop every live
source under try/catch; clear the live set; drop the active and camera
flags. The gain node refs are not touched. Any uncaught synchronous throw
would surface as `Except.error`. -/
def stopSession (s : AppState) : Except String AppState := do
  let s := match s.session with
    | some _ => { s with session := none }
    | none => s
  let s := match s.inputCtx with
    | some _ => { s with inputCtx := none }
    | none => s
  let s := match s.outputCtx with
    | some _ => { s with outputCtx := none }
    | none => s
  let s := match s.videoInterval with
    | some _ => { s with videoInterval := none }
    | none => s
  let s := match s.videoStream with
    | some _ => { s with videoStream := none }
    | none => s
  let _stoppedSources := s.sources.map tryStop
  pure { s with sources := [], isActive := false, isCameraOn := false }

/-- Capture-pipeline state for the mute policy. `uiMuted` is the current
React `isMuted` state (what `toggleMute` flips and the UI shows);
`handlerMuted` is the value of the `isMuted` binding captured by the
`scriptProcessor.onaudioprocess` closure when it was installed inside
`onopen` (App.tsx lines 200-207) — the closure reads the binding of the
render in which `startSession` ran, and is never reinstalled on re-render;
`sent` is the list of encoded chunks handed to `sendRealtimeInput`. -/
structure CaptureState where
  uiMuted : Bool
  handlerMuted : Bool
  sent : List PcmBlob
deriving DecidableEq

/-- Install the capture pipeline (App.tsx lines 197-211): the
`onaudioprocess` closure captures the current `isMuted` value. -/
def installAudioPipeline (uiMuted : Bool) : CaptureState :=
  ⟨uiMuted, uiMuted, []⟩

/-- The `toggleMute` handler (App.tsx line 298): flips the React state; the
already-installed `onaudioprocess` closure is not touched. -/
def toggleMute (s : CaptureState) : CaptureState :=
  { s with uiMuted := !s.uiMuted }

/-- One capture tick (App.tsx lines 200-207): the handler returns early when
the `isMuted` binding it captured is true; otherwise it encodes the chunk
with `createPcmBlob` and sends it. -/
def onaudioprocess (s : CaptureState) (chunk : List ℚ) : CaptureState :=
  if s.handlerMuted then s
  else { s with sent := s.sent ++ [createPcmBlob chunk] }

/-- A populated mid-session state with two live sources, used as concrete
input for witnesses. -/
def sampleState : AppState :=
  { initialState with
      sources := [⟨0, 0, 1, false⟩, ⟨1, 1, 1, false⟩],
      nextId := 2,
      nextStartTime := 2 }

/-- A message carrying only the interruption marker. -/
def interruptMessage : ServerMessage := ⟨none, none, none, false, true⟩

/-- A message carrying only the turn-complete marker. -/
def turnCompleteMessage : ServerMessage := ⟨none, none, none, true, false⟩

/-- A message carrying none of the recognized payloads. -/
def emptyMessage : ServerMessage := ⟨none, none, none, false, false⟩

/-- A half-second buffer at the 24000 Hz output rate shape (1 sample at
rate 2) used for concrete scheduling witnesses. -/
def halfSecBuffer : AudioBuffer := ⟨[0], 2⟩

/-- Three half-second buffers arriving on time. -/
def threeBuffers : List (AudioBuffer × ℚ) :=
  [(halfSecBuffer, 0), (halfSecBuffer, 1/2), (halfSecBuffer, 1)]

/- Branch equations and frame facts about the onmessage branches. -/

lemma audioBranch_none_eq (σ : AppState) (t : ℚ) : audioBranch σ none t = (σ, []) := rfl

lemma audioBranch_noctx_eq (σ : AppState) (buf : AudioBuffer) (t : ℚ) (h : σ.outputCtx = none) :
    audioBranch σ (some buf) t = (σ, []) := by
  simp [audioBranch, h]

lemma audioBranch_ctx_eq (σ : AppState) (buf : AudioBuffer) (t : ℚ) (h : σ.outputCtx = some ()) :
    audioBranch σ (some buf) t =
      ({ σ with
          nextStartTime := max σ.nextStartTime t + buf.duration,
          sources := σ.sources ++ [⟨σ.nextId, max σ.nextStartTime t, buf.duration, false⟩],
          nextId := σ.nextId + 1 },
       [Event.start σ.nextId (max σ.nextStartTime t) buf.duration]) := by
  simp [audioBranch, h]

lemma audioBranch_outputCtx (σ : AppState) (a : Option AudioBuffer) (t : ℚ) :
    (audioBranch σ a t).1.outputCtx = σ.outputCtx := by
  cases a with
  | none => rfl
  | some buf => cases h : σ.outputCtx <;> simp [audioBranch, h]

lemma audioBranch_currentInput (σ : AppState) (a : Option AudioBuffer) (t : ℚ) :
    (audioBranch σ a t).1.currentInput = σ.currentInput := by
  cases a with
  | none => rfl
  | some buf => cases h : σ.outputCtx <;> simp [audioBranch, h]

lemma audioBranch_currentOutput (σ : AppState) (a : Option AudioBuffer) (t : ℚ) :
    (audioBranch σ a t).1.currentOutput = σ.currentOutput := by
  cases a with
  | none => rfl
  | some buf => cases h : σ.outputCtx <;> simp [audioBranch, h]

lemma audioBranch_transcriptions (σ : AppState) (a : Option AudioBuffer) (t : ℚ) :
    (audioBranch σ a t).1.transcriptions = σ.transcriptions := by
  cases a with
  | none => rfl
  | some buf => cases h : σ.outputCtx <;> simp [audioBranch, h]

lemma audioBranch_sources_mem (σ : AppState) (a : Option AudioBuffer) (t : ℚ)
    (s : PlaybackSource) (h : s ∈ σ.sources) : s ∈ (audioBranch σ a t).1.sources := by
  cases a with
  | none => exact h
  | some buf =>
      cases hc : σ.outputCtx with
      | none => simpa [audioBranch, hc] using h
      | some u => simp [audioBranch, hc, List.mem_append, h]

lemma inputTransBranch_none (σ : AppState) : inputTransBranch σ none = σ := rfl

lemma inputTransBranch_some (σ : AppState) (x : String) :
    inputTransBranch σ (some x) = { σ with currentInput := σ.currentInput ++ x } := rfl

lemma inputTransBranch_nextStartTime (σ : AppState) (f : Option String) :
    (inputTransBranch σ f).nextStartTime = σ.nextStartTime := by cases f <;> rfl

lemma inputTransBranch_sources (σ : AppState) (f : Option String) :
    (inputTransBranch σ f).sources = σ.sources := by cases f <;> rfl

lemma inputTransBranch_nextId (σ : AppState) (f : Option String) :
    (inputTransBranch σ f).nextId = σ.nextId := by cases f <;> rfl

lemma inputTransBranch_outputCtx (σ : AppState) (f : Option String) :
    (inputTransBranch σ f).outputCtx = σ.outputCtx := by cases f <;> rfl

lemma inputTransBranch_transcriptions (σ : AppState) (f : Option String) :
    (inputTransBranch σ f).transcriptions = σ.transcriptions := by cases f <;> rfl

lemma inputTransBranch_currentOutput (σ : AppState) (f : Option String) :
    (inputTransBranch σ f).currentOutput = σ.currentOutput := by cases f <;> rfl

lemma inputTransBranch_currentInput (σ : AppState) (f : Option String) :
    (inputTransBranch σ f).currentInput =
      match f with
      | some x => σ.currentInput ++ x
      | none => σ.currentInput := by cases f <;> rfl

lemma outputTransBranch_none (σ : AppState) : outputTransBranch σ none = σ := rfl

lemma outputTransBranch_some (σ : AppState) (x : String) :
    outputTransBranch σ (some x) = { σ with currentOutput := σ.currentOutput ++ x } := rfl

lemma outputTransBranch_nextStartTime (σ : AppState) (f : Option String) :
    (outputTransBranch σ f).nextStartTime = σ.nextStartTime := by cases f <;> rfl

lemma outputTransBranch_sources (σ : AppState) (f : Option String) :
    (outputTransBranch σ f).sources = σ.sources := by cases f <;> rfl

lemma outputTransBranch_nextId (σ : AppState) (f : Option String) :
    (outputTransBranch σ f).nextId = σ.nextId := by cases f <;> rfl

lemma outputTransBranch_outputCtx (σ : AppState) (f : Option String) :
    (outputTransBranch σ f).outputCtx = σ.outputCtx := by cases f <;> rfl

lemma outputTransBranch_transcriptions (σ : AppState) (f : Option String) :
    (outputTransBranch σ f).transcriptions = σ.transcriptions := by cases f <;> rfl

lemma outputTransBranch_currentInput (σ : AppState) (f : Option String) :
    (outputTransBranch σ f).currentInput = σ.currentInput := by cases f <;> rfl

lemma outputTransBranch_currentOutput (σ : AppState) (f : Option String) :
    (outputTransBranch σ f).currentOutput =
      match f with
      | some x => σ.currentOutput ++ x
      | none => σ.currentOutput := by cases f <;> rfl

lemma turnCompleteBranch_false (σ : AppState) (now : ℕ) : turnCompleteBranch σ false now = σ := rfl

lemma turnCompleteBranch_true_eq (σ : AppState) (now : ℕ) :
    turnCompleteBranch σ true now =
      { σ with
          transcriptions := σ.transcriptions ++
            ((if σ.currentInput ≠ "" then [⟨σ.currentInput, Sender.user, now⟩] else []) ++
             (if σ.currentOutput ≠ "" then [⟨σ.currentOutput, Sender.ai, now⟩] else [])),
          currentInput := "", currentOutput := "" } := by
  unfold turnCompleteBranch
  by_cases hu : σ.currentInput ≠ "" <;> by_cases ha : σ.currentOutput ≠ "" <;> simp [hu, ha]

lemma turnCompleteBranch_nextStartTime (σ : AppState) (tc : Bool) (now : ℕ) :
    (turnCompleteBranch σ tc now).nextStartTime = σ.nextStartTime := by
  cases tc
  · rfl
  · rw [turnCompleteBranch_true_eq]

lemma turnCompleteBranch_sources (σ : AppState) (tc : Bool) (now : ℕ) :
    (turnCompleteBranch σ tc now).sources = σ.sources := by
  cases tc
  · rfl
  · rw [turnCompleteBranch_true_eq]

lemma turnCompleteBranch_nextId (σ : AppState) (tc : Bool) (now : ℕ) :
    (turnCompleteBranch σ tc now).nextId = σ.nextId := by
  cases tc
  · rfl
  · rw [turnCompleteBranch_true_eq]

lemma turnCompleteBranch_outputCtx (σ : AppState) (tc : Bool) (now : ℕ) :
    (turnCompleteBranch σ tc now).outputCtx = σ.outputCtx := by
  cases tc
  · rfl
  · rw [turnCompleteBranch_true_eq]

lemma interruptBranch_false (σ : AppState) : interruptBranch σ false = (σ, []) := rfl

lemma interruptBranch_false_fst (σ : AppState) : (interruptBranch σ false).1 = σ := rfl

lemma audioBranch_none_fst (σ : AppState) (t : ℚ) : (audioBranch σ none t).1 = σ := rfl

lemma interruptBranch_true (σ : AppState) :
    interruptBranch σ true =
      ({ σ with sources := [], nextStartTime := 0 },
       σ.sources.map (fun s => Event.stop s.id)) := rfl

lemma interruptBranch_currentInput (σ : AppState) (i : Bool) :
    (interruptBranch σ i).1.currentInput = σ.currentInput := by cases i <;> rfl

lemma interruptBranch_currentOutput (σ : AppState) (i : Bool) :
    (interruptBranch σ i).1.currentOutput = σ.currentOutput := by cases i <;> rfl

lemma interruptBranch_transcriptions (σ : AppState) (i : Bool) :
    (interruptBranch σ i).1.transcriptions = σ.transcriptions := by cases i <;> rfl

lemma interruptBranch_outputCtx (σ : AppState) (i : Bool) :
    (interruptBranch σ i).1.outputCtx = σ.outputCtx := by cases i <;> rfl

lemma interruptBranch_nextId (σ : AppState) (i : Bool) :
    (interruptBranch σ i).1.nextId = σ.nextId := by cases i <;> rfl

lemma onmessage_outputCtx (σ : AppState) (m : ServerMessage) (t : ℚ) (now : ℕ) :
    (onmessage σ m t now).1.outputCtx = σ.outputCtx := by
  unfold onmessage
  rw [interruptBranch_outputCtx, turnCompleteBranch_outputCtx, outputTransBranch_outputCtx,
    inputTransBranch_outputCtx, audioBranch_outputCtx]

lemma onmessage_audioMessage (σ : AppState) (buf : AudioBuffer) (t : ℚ) (now : ℕ)
    (h : σ.outputCtx = some ()) :
    onmessage σ (audioMessage buf) t now =
      ({ σ with
          nextStartTime := max σ.nextStartTime t + buf.duration,
          sources := σ.sources ++ [⟨σ.nextId, max σ.nextStartTime t, buf.duration, false⟩],
          nextId := σ.nextId + 1 },
       [Event.start σ.nextId (max σ.nextStartTime t) buf.duration]) := by
  unfold onmessage audioMessage
  rw [audioBranch_ctx_eq σ buf t h]
  rfl

lemma playSeq_cursor_trace :
    ∀ (l : List (AudioBuffer × ℚ)) (σ : AppState), σ.outputCtx = some () →
      keepsPace σ.nextStartTime l = true →
      (playSeq σ l).1.nextStartTime = σ.nextStartTime + sumDur l ∧
      (playSeq σ l).2 = startEvents σ.nextId σ.nextStartTime l := by
  intro l
  induction l with
  | nil =>
      intro σ hctx h
      exact ⟨by simp [playSeq, sumDur], rfl⟩
  | cons hd tl ih =>
      intro σ hctx h
      obtain ⟨buf, t⟩ := hd
      simp only [keepsPace, Bool.and_eq_true, decide_eq_true_eq] at h
      have hmsg := onmessage_audioMessage σ buf t 0 hctx
      rw [max_eq_left h.1] at hmsg
      have hstep : playSeq σ ((buf, t) :: tl) =
          ((playSeq (onmessage σ (audioMessage buf) t 0).1 tl).1,
           (onmessage σ (audioMessage buf) t 0).2 ++
             (playSeq (onmessage σ (audioMessage buf) t 0).1 tl).2) := rfl
      rw [hstep, hmsg]
      obtain ⟨ihc, iht⟩ := ih
        { σ with
            nextStartTime := σ.nextStartTime + buf.duration,
            sources := σ.sources ++ [⟨σ.nextId, σ.nextStartTime, buf.duration, false⟩],
            nextId := σ.nextId + 1 }
        hctx h.2
      constructor
      · rw [ihc]
        show σ.nextStartTime + buf.duration + sumDur tl = σ.nextStartTime + sumDur ((buf, t) :: tl)
        simp only [sumDur]
        ring
      · rw [iht]
        show Event.start σ.nextId σ.nextStartTime buf.duration ::
            startEvents (σ.nextId + 1) (σ.nextStartTime + buf.duration) tl =
          startEvents σ.nextId σ.nextStartTime ((buf, t) :: tl)
        rw [startEvents]

lemma startEvents_get :
    ∀ (l : List (AudioBuffer × ℚ)) (k : ℕ) (c : ℚ) (i : ℕ) (h : i < l.length),
      (startEvents k c l)[i]? =
        some (Event.start (k + i) (c + sumDur (l.take i)) (l.get ⟨i, h⟩).1.duration) := by
  intro l
  induction l with
  | nil => intro k c i h; simp at h
  | cons hd tl ih =>
      intro k c i h
      obtain ⟨buf, t⟩ := hd
      cases i with
      | zero => simp [startEvents, sumDur]
      | succ j =>
          have hj : j < tl.length := by simpa using h
          rw [startEvents]
          rw [List.getElem?_cons_succ]
          rw [ih (k + 1) (c + buf.duration) j hj]
          congr 2
          · omega
          · simp only [List.take, sumDur]
            ring

/-- C1: for every sequence of decoded audio buffers with durations d1..dn
processed in order by the onmessage audio branch from a fresh session, with
no interruption and with arrival keeping pace with consumption, the i-th
`source.start` call passes exactly the sum of durations d1..d(i-1) (offset
from the first buffer's start, which is 0), and the timeline cursor after
all n buffers equals the sum of all n durations. -/
theorem gapless_scheduling (l : List (AudioBuffer × ℚ)) (h : keepsPace 0 l = true) :
    (playSeq initialState l).1.nextStartTime = sumDur l ∧
    ∀ i (hi : i < l.length),
      ((playSeq initialState l).2)[i]? =
        some (Event.start i (sumDur (l.take i)) (l.get ⟨i, hi⟩).1.duration) := by
  obtain ⟨hc, ht⟩ := playSeq_cursor_trace l initialState rfl h
  constructor
  · rw [hc]
    show (0 : ℚ) + sumDur l = sumDur l
    ring
  · intro i hi
    rw [ht]
    have hg := startEvents_get l initialState.nextId initialState.nextStartTime i hi
    simpa [initialState] using hg

/-- C1 witness: three half-second buffers arriving on time are scheduled
gaplessly and leave the cursor at the total duration. -/
theorem gapless_scheduling_witness :
    keepsPace 0 threeBuffers = true ∧
    (playSeq initialState threeBuffers).1.nextStartTime = sumDur threeBuffers :=
  ⟨by norm_num [keepsPace, threeBuffers, halfSecBuffer, AudioBuffer.duration],
   (gapless_scheduling threeBuffers
     (by norm_num [keepsPace, threeBuffers, halfSecBuffer, AudioBuffer.duration])).1⟩

/-- C2: processing a message with the interruption marker stop-signals every
source in the live set, leaves the live set empty and the timeline cursor at
0, and the next audio buffer scheduled afterwards (at a nonnegative output
clock reading) starts exactly at the current output clock time. -/
theorem interruption_resets_timeline (σ : AppState) (m : ServerMessage) (t : ℚ) (now : ℕ)
    (h : m.interrupted = true) (hctx : σ.outputCtx = some ()) :
    (onmessage σ m t now).1.sources = [] ∧
    (onmessage σ m t now).1.nextStartTime = 0 ∧
    (∀ s ∈ σ.sources, Event.stop s.id ∈ (onmessage σ m t now).2) ∧
    (∀ (buf : AudioBuffer) (t₂ : ℚ) (now₂ : ℕ), 0 ≤ t₂ →
      (onmessage (onmessage σ m t now).1 (audioMessage buf) t₂ now₂).2 =
        [Event.start (onmessage σ m t now).1.nextId t₂ buf.duration]) := by
  obtain ⟨a, it, ot, tc, i⟩ := m
  simp only at h
  subst h
  have hs4 : ∀ s ∈ σ.sources,
      s ∈ (turnCompleteBranch
            (outputTransBranch (inputTransBranch (audioBranch σ a t).1 it) ot) tc now).sources := by
    intro s hs
    rw [turnCompleteBranch_sources, outputTransBranch_sources, inputTransBranch_sources]
    exact audioBranch_sources_mem σ a t s hs
  have hres1 : (onmessage σ ⟨a, it, ot, tc, true⟩ t now).1.sources = [] := by
    show (interruptBranch (turnCompleteBranch
      (outputTransBranch (inputTransBranch (audioBranch σ a t).1 it) ot) tc now) true).1.sources = []
    rw [interruptBranch_true]
  have hres2 : (onmessage σ ⟨a, it, ot, tc, true⟩ t now).1.nextStartTime = 0 := by
    show (interruptBranch (turnCompleteBranch
      (outputTransBranch (inputTransBranch (audioBranch σ a t).1 it) ot) tc now) true).1.nextStartTime = 0
    rw [interruptBranch_true]
  refine ⟨hres1, hres2, ?_, ?_⟩
  · intro s hs
    show Event.stop s.id ∈ (audioBranch σ a t).2 ++
      (interruptBranch (turnCompleteBranch
        (outputTransBranch (inputTransBranch (audioBranch σ a t).1 it) ot) tc now) true).2
    rw [interruptBranch_true]
    refine List.mem_append_right _ ?_
    exact List.mem_map.mpr ⟨s, hs4 s hs, rfl⟩
  · intro buf t₂ now₂ ht₂
    have hctx' : (onmessage σ ⟨a, it, ot, tc, true⟩ t now).1.outputCtx = some () := by
      rw [onmessage_outputCtx]; exact hctx
    rw [onmessage_audioMessage _ buf t₂ now₂ hctx', hres2, max_eq_right ht₂]

/-- C2 witness: interrupting a session with two live sources at clock time 4
empties the live set, zeroes the cursor, and stop-signals source 0. -/
theorem interruption_resets_timeline_witness :
    (onmessage sampleState interruptMessage 4 0).1.sources = [] ∧
    (onmessage sampleState interruptMessage 4 0).1.nextStartTime = 0 ∧
    Event.stop 0 ∈ (onmessage sampleState interruptMessage 4 0).2 :=
  ⟨(interruption_resets_timeline sampleState interruptMessage 4 0 rfl rfl).1,
   (interruption_resets_timeline sampleState interruptMessage 4 0 rfl rfl).2.1,
   (interruption_resets_timeline sampleState interruptMessage 4 0 rfl rfl).2.2.1
     ⟨0, 0, 1, false⟩ (by simp [sampleState])⟩

/-- C3: every `source.start` call issued while handling a message passes a
start time at least the current output clock reading (the cursor is bumped
to `max(cursor, ctx.currentTime)` first); the cursor advances by exactly the
scheduled buffer's duration when a buffer is scheduled, is otherwise
unchanged, and is reset to 0 exactly on interruption. -/
theorem never_schedules_in_past (σ : AppState) (m : ServerMessage) (t : ℚ) (now : ℕ) :
    (∀ e ∈ (onmessage σ m t now).2, ∀ i st d, e = Event.start i st d → t ≤ st) ∧
    (m.interrupted = true → (onmessage σ m t now).1.nextStartTime = 0) ∧
    (m.interrupted = false → m.audio = none →
      (onmessage σ m t now).1.nextStartTime = σ.nextStartTime) ∧
    (m.interrupted = false → σ.outputCtx = some () → ∀ buf, m.audio = some buf →
      (onmessage σ m t now).1.nextStartTime = max σ.nextStartTime t + buf.duration) := by
  obtain ⟨a, it, ot, tc, i⟩ := m
  have hcur : ∀ σ₀ : AppState,
      (turnCompleteBranch (outputTransBranch (inputTransBranch σ₀ it) ot) tc now).nextStartTime =
        σ₀.nextStartTime := by
    intro σ₀
    rw [turnCompleteBranch_nextStartTime, outputTransBranch_nextStartTime,
      inputTransBranch_nextStartTime]
  refine ⟨?_, ?_, ?_, ?_⟩
  · intro e he j st d hed
    subst hed
    have he' : Event.start j st d ∈ (audioBranch σ a t).2 ++
        (interruptBranch (turnCompleteBranch
          (outputTransBranch (inputTransBranch (audioBranch σ a t).1 it) ot) tc now) i).2 := he
    rcases List.mem_append.mp he' with hl | hr
    · cases a with
      | none => simp [audioBranch] at hl
      | some buf =>
          cases hc : σ.outputCtx with
          | none => rw [audioBranch_noctx_eq σ buf t hc] at hl; simp at hl
          | some u =>
              rw [audioBranch_ctx_eq σ buf t (by cases u; exact hc)] at hl
              simp only [List.mem_singleton] at hl
              cases hl
              exact le_max_right _ _
    · cases i with
      | false => simp [interruptBranch_false] at hr
      | true =>
          rw [interruptBranch_true] at hr
          obtain ⟨s, _, hse⟩ := List.mem_map.mp hr
          exact absurd hse (by simp)
  · intro hi
    simp only at hi
    subst hi
    show (interruptBranch _ true).1.nextStartTime = 0
    rw [interruptBranch_true]
  · intro hi ha
    simp only at hi ha
    subst hi
    subst ha
    show (interruptBranch (turnCompleteBranch
      (outputTransBranch (inputTransBranch (audioBranch σ none t).1 it) ot) tc now)
        false).1.nextStartTime = σ.nextStartTime
    rw [interruptBranch_false_fst, hcur, audioBranch_none_fst]
  · intro hi hctx buf ha
    simp only at hi ha
    subst hi
    subst ha
    show (interruptBranch (turnCompleteBranch
      (outputTransBranch (inputTransBranch (audioBranch σ (some buf) t).1 it) ot) tc now)
        false).1.nextStartTime = max σ.nextStartTime t + buf.duration
    rw [interruptBranch_false_fst, hcur, audioBranch_ctx_eq σ buf t hctx]

/-- C3 witness: scheduling a half-second buffer at clock time 5 with the
cursor at 2 advances the cursor to max(2, 5) plus the buffer duration. -/
theorem never_schedules_in_past_witness :
    (onmessage sampleState (audioMessage halfSecBuffer) 5 0).1.nextStartTime =
      max sampleState.nextStartTime 5 + halfSecBuffer.duration :=
  (never_schedules_in_past sampleState (audioMessage halfSecBuffer) 5 0).2.2.2
    rfl rfl halfSecBuffer rfl

/-- C8: a Transcription record is appended exactly when the turn-complete
marker is set and the corresponding accumulated text (the accumulator plus
this message's fragment; input for sender user, output for sender ai) is
non-empty; without the turn-complete marker the persisted list is
unchanged. -/
theorem transcript_flush_characterization (σ : AppState) (m : ServerMessage) (t : ℚ) (now : ℕ) :
    (onmessage σ m t now).1.transcriptions =
      σ.transcriptions ++
        (if m.turnComplete then
          (let u := match m.inputTranscription with
                    | some x => σ.currentInput ++ x
                    | none => σ.currentInput
           let a := match m.outputTranscription with
                    | some x => σ.currentOutput ++ x
                    | none => σ.currentOutput
           (if u ≠ "" then [⟨u, Sender.user, now⟩] else []) ++
           (if a ≠ "" then [⟨a, Sender.ai, now⟩] else []))
         else []) := by
  obtain ⟨a, it, ot, tc, i⟩ := m
  show (interruptBranch (turnCompleteBranch
      (outputTransBranch (inputTransBranch (audioBranch σ a t).1 it) ot) tc now) i).1.transcriptions = _
  rw [interruptBranch_transcriptions]
  cases tc with
  | false =>
      rw [turnCompleteBranch_false, outputTransBranch_transcriptions,
        inputTransBranch_transcriptions, audioBranch_transcriptions]
      simp
  | true =>
      rw [turnCompleteBranch_true_eq]
      show (outputTransBranch (inputTransBranch (audioBranch σ a t).1 it) ot).transcriptions ++ _ = _
      rw [outputTransBranch_transcriptions, inputTransBranch_transcriptions,
        audioBranch_transcriptions]
      rw [outputTransBranch_currentInput, inputTransBranch_currentInput,
        outputTransBranch_currentOutput, inputTransBranch_currentOutput, audioBranch_currentInput,
        audioBranch_currentOutput]
      simp only [if_true]

/-- C9: a message carrying no audio payload, no transcript fragment, no
turn-complete marker and no interruption marker leaves the whole session
state unchanged and issues no audio-graph events. -/
theorem onmessage_frame_condition (σ : AppState) (t : ℚ) (now : ℕ) (m : ServerMessage)
    (h₁ : m.audio = none) (h₂ : m.inputTranscription = none)
    (h₃ : m.outputTranscription = none) (h₄ : m.turnComplete = false)
    (h₅ : m.interrupted = false) :
    onmessage σ m t now = (σ, []) := by
  obtain ⟨a, it, ot, tc, i⟩ := m
  simp only at h₁ h₂ h₃ h₄ h₅
  subst h₁
  subst h₂
  subst h₃
  subst h₄
  subst h₅
  rfl

/-- C9 witness: the empty message leaves a populated mid-session state
untouched. -/
theorem onmessage_frame_condition_witness :
    onmessage sampleState emptyMessage 3 7 = (sampleState, []) :=
  onmessage_frame_condition sampleState 3 7 emptyMessage rfl rfl rfl rfl rfl

/-- C10: any message carrying the turn-complete marker leaves both
transcript accumulators empty, also when they already were empty and no
record was persisted. -/
theorem turn_complete_clears_accumulators (σ : AppState) (m : ServerMessage) (t : ℚ) (now : ℕ)
    (h : m.turnComplete = true) :
    (onmessage σ m t now).1.currentInput = "" ∧
    (onmessage σ m t now).1.currentOutput = "" := by
  obtain ⟨a, it, ot, tc, i⟩ := m
  simp only at h
  subst h
  constructor
  · show (interruptBranch (turnCompleteBranch _ true now) i).1.currentInput = ""
    rw [interruptBranch_currentInput, turnCompleteBranch_true_eq]
  · show (interruptBranch (turnCompleteBranch _ true now) i).1.currentOutput = ""
    rw [interruptBranch_currentOutput, turnCompleteBranch_true_eq]

/-- C10 witness: a bare turn-complete message on a state with already-empty
accumulators (no record is persisted) still leaves both accumulators
empty. -/
theorem turn_complete_clears_accumulators_witness :
    (onmessage sampleState turnCompleteMessage 0 5).1.currentInput = "" ∧
    (onmessage sampleState turnCompleteMessage 0 5).1.currentOutput = "" :=
  turn_complete_clears_accumulators sampleState turnCompleteMessage 0 5 rfl

/-- C7 counterexample: after `stopSession` on a populated mid-session state
the input gain node ref is still held (the code never nulls the gain refs),
so not every audio ref is released as the claim states. -/
theorem teardown_gain_ref_survives :
    (stopSession sampleState).map (fun s => s.inputGain) = Except.ok (some ()) := rfl

set_option maxHeartbeats 2000000 in
/-- C7 amended: calling `stopSession` twice in a row never throws and is
idempotent; afterwards the live source set is empty and the session, audio
context, video stream and video interval refs are released (no pending
video timer), while the input/output gain node refs are left unchanged. -/
theorem teardown_idempotent (s : AppState) :
    ∃ s₁, stopSession s = Except.ok s₁ ∧ stopSession s₁ = Except.ok s₁ ∧
      s₁.sources = [] ∧ s₁.session = none ∧ s₁.inputCtx = none ∧ s₁.outputCtx = none ∧
      s₁.videoInterval = none ∧ s₁.videoStream = none ∧
      s₁.inputGain = s.inputGain ∧ s₁.outputGain = s.outputGain := by
  obtain ⟨ses, ic, oc, ig, og, vi, vs, c, srcs, nid, ci, co, trs, ia, icam⟩ := s
  cases ses <;> cases ic <;> cases oc <;> cases vi <;> cases vs <;>
    exact ⟨_, rfl, rfl, rfl, rfl, rfl, rfl, rfl, rfl, rfl, rfl⟩

/-- C5: refutation of the mute policy on the code. The
`scriptProcessor.onaudioprocess` closure tests the `isMuted` binding it
captured when it was installed at session start; toggling mute afterwards
changes only the React state. Starting unmuted and toggling mute
mid-session leaves the session muted in the UI, yet the next capture tick
still encodes and sends a chunk. -/
theorem muted_tick_still_sends :
    (toggleMute (installAudioPipeline false)).uiMuted = true ∧
    ((onaudioprocess (toggleMute (installAudioPipeline false))
        (List.replicate 4096 0)).sent).length = 1 :=
  ⟨rfl, rfl⟩

/- Round-trip facts about the base64 and PCM helpers. -/

lemma b64Val_b64Char (n : ℕ) (h : n < 64) : b64Val (b64Char n) = n := by
  have key : ∀ m : Fin 64, b64Val (b64Char m.val) = m.val := by decide
  exact key ⟨n, h⟩

lemma b64Char_ne_pad (n : ℕ) (h : n < 64) : b64Char n ≠ '=' := by
  have key : ∀ m : Fin 64, b64Char m.val ≠ '=' := by decide
  exact key ⟨n, h⟩

theorem decodeBase64_encodeBase64 :
    ∀ (bs : List ℕ), (∀ b ∈ bs, b < 256) → decodeBase64Chars (encodeBase64Chars bs) = bs
  | [], _ => rfl
  | [b0], h => by
      have hb0 : b0 < 256 := h b0 (by simp)
      show decodeBase64Chars [b64Char (b0 / 4), b64Char (b0 % 4 * 16), '=', '='] = [b0]
      rw [decodeBase64Chars]
      rw [if_pos rfl]
      rw [b64Val_b64Char _ (by omega), b64Val_b64Char _ (by omega)]
      simp only [List.cons.injEq, and_true]
      omega
  | [b0, b1], h => by
      have hb0 : b0 < 256 := h b0 (by simp)
      have hb1 : b1 < 256 := h b1 (by simp)
      show decodeBase64Chars
          [b64Char (b0 / 4), b64Char (b0 % 4 * 16 + b1 / 16), b64Char (b1 % 16 * 4), '='] = [b0, b1]
      rw [decodeBase64Chars]
      rw [if_neg (b64Char_ne_pad _ (by omega))]
      rw [if_pos rfl]
      rw [b64Val_b64Char _ (by omega), b64Val_b64Char _ (by omega), b64Val_b64Char _ (by omega)]
      simp only [List.cons.injEq, and_true]
      constructor <;> omega
  | b0 :: b1 :: b2 :: rest, h => by
      have hb0 : b0 < 256 := h b0 (by simp)
      have hb1 : b1 < 256 := h b1 (by simp)
      have hb2 : b2 < 256 := h b2 (by simp)
      have hrest : ∀ b ∈ rest, b < 256 := fun b hb => h b (by simp [hb])
      show decodeBase64Chars
          (b64Char (b0 / 4) :: b64Char (b0 % 4 * 16 + b1 / 16) ::
           b64Char (b1 % 16 * 4 + b2 / 64) :: b64Char (b2 % 64) ::
           encodeBase64Chars rest) = b0 :: b1 :: b2 :: rest
      rw [decodeBase64Chars]
      rw [if_neg (b64Char_ne_pad _ (by omega))]
      rw [if_neg (b64Char_ne_pad _ (by omega))]
      rw [b64Val_b64Char _ (by omega), b64Val_b64Char _ (by omega),
        b64Val_b64Char _ (by omega), b64Val_b64Char _ (by omega)]
      rw [decodeBase64_encodeBase64 rest hrest]
      simp only [List.cons.injEq, and_true]
      refine ⟨by omega, by omega, by omega⟩

lemma int16_bytes_roundtrip (q : ℤ) (h1 : -32768 ≤ q) (h2 : q ≤ 32767) :
    bytesToInt16 ((q % 65536).toNat % 256) ((q % 65536).toNat / 256) = q := by
  unfold bytesToInt16
  split <;> omega

lemma floatToInt16_mem (s : ℚ) : -32768 ≤ floatToInt16 s ∧ floatToInt16 s ≤ 32767 := by
  unfold floatToInt16
  exact ⟨le_max_left _ _, max_le (by norm_num) (min_le_left _ _)⟩

lemma floatToInt16_close (s : ℚ) (h1 : -1 ≤ s) (h2 : s ≤ 1) :
    |s - (floatToInt16 s : ℚ) / 32768| ≤ 1 / 32768 := by
  have hfl : ((⌊s * 32768⌋ : ℤ) : ℚ) ≤ s * 32768 := Int.floor_le _
  have hfu : s * 32768 < ((⌊s * 32768⌋ : ℤ) : ℚ) + 1 := Int.lt_floor_add_one _
  have hlow : (-32768 : ℤ) ≤ ⌊s * 32768⌋ := by
    apply Int.le_floor.mpr
    push_cast
    nlinarith
  by_cases hle : ⌊s * 32768⌋ ≤ 32767
  · have hq : floatToInt16 s = ⌊s * 32768⌋ := by
      unfold floatToInt16
      rw [min_eq_right hle, max_eq_right hlow]
    rw [hq]
    have ha : ((⌊s * 32768⌋ : ℤ) : ℚ) / 32768 ≤ s := by
      rw [div_le_iff₀ (by norm_num : (0:ℚ) < 32768)]
      exact hfl
    have hb : s ≤ (((⌊s * 32768⌋ : ℤ) : ℚ) + 1) / 32768 := by
      rw [le_div_iff₀ (by norm_num : (0:ℚ) < 32768)]
      linarith
    rw [abs_le]
    constructor <;> · linarith
  · have hup : ⌊s * 32768⌋ ≤ 32768 := by
      have h32 : s * 32768 ≤ ((32768 : ℤ) : ℚ) := by push_cast; nlinarith
      have := Int.floor_le_floor h32
      simpa using this
    have hf : ⌊s * 32768⌋ = 32768 := by omega
    have hs1 : s = 1 := by
      have hge : (32768 : ℚ) ≤ s * 32768 := by
        have := hfl
        rw [hf] at this
        push_cast at this
        linarith
      have : (1 : ℚ) ≤ s := by linarith
      linarith [le_antisymm h2 this]
    subst hs1
    have hq : floatToInt16 1 = 32767 := by
      unfold floatToInt16
      rw [hf]
      norm_num
    rw [hq]
    rw [abs_le]
    constructor <;> norm_num

lemma pcm_bytes_lt (samples : List ℚ) :
    ∀ b ∈ (samples.map floatToInt16).flatMap int16ToBytes, b < 256 := by
  intro b hb
  simp only [List.mem_flatMap, List.mem_map] at hb
  obtain ⟨q, ⟨s, _, rfl⟩, hbq⟩ := hb
  unfold int16ToBytes at hbq
  have h0 : 0 ≤ floatToInt16 s % 65536 := Int.emod_nonneg _ (by norm_num)
  have h1 : floatToInt16 s % 65536 < 65536 := Int.emod_lt_of_pos _ (by norm_num)
  simp only [List.mem_cons, List.mem_singleton] at hbq
  rcases hbq with rfl | rfl | hfalse
  · omega
  · omega
  · simp at hfalse

theorem decodePcm_roundtrip :
    ∀ (samples : List ℚ), (∀ s ∈ samples, -1 ≤ s ∧ s ≤ 1) →
      List.Forall₂ (fun s d => |s - d| ≤ 1 / 32768) samples
        ((decodePcmBytes ((samples.map floatToInt16).flatMap int16ToBytes)).map
          (fun q : ℤ => (q : ℚ) / 32768))
  | [], _ => List.Forall₂.nil
  | s :: rest, h => by
      have hs := h s (by simp)
      have hrest : ∀ x ∈ rest, -1 ≤ x ∧ x ≤ 1 := fun x hx => h x (by simp [hx])
      rw [List.map_cons, List.flatMap_cons]
      rw [show int16ToBytes (floatToInt16 s) =
          [(floatToInt16 s % 65536).toNat % 256, (floatToInt16 s % 65536).toNat / 256] from rfl]
      rw [List.cons_append, List.cons_append, List.nil_append]
      rw [show decodePcmBytes ((floatToInt16 s % 65536).toNat % 256 ::
            (floatToInt16 s % 65536).toNat / 256 ::
            (rest.map floatToInt16).flatMap int16ToBytes) =
          bytesToInt16 ((floatToInt16 s % 65536).toNat % 256)
            ((floatToInt16 s % 65536).toNat / 256) ::
          decodePcmBytes ((rest.map floatToInt16).flatMap int16ToBytes) from rfl]
      rw [int16_bytes_roundtrip _ (floatToInt16_mem s).1 (floatToInt16_mem s).2]
      rw [List.map_cons]
      exact List.Forall₂.cons (floatToInt16_close s hs.1 hs.2) (decodePcm_roundtrip rest hrest)

lemma pcm_pipeline_eq (samples : List ℚ) :
    (decodeAudioData (decode (createPcmBlob samples).data) 24000 1).samples =
      (decodePcmBytes ((samples.map floatToInt16).flatMap int16ToBytes)).map
        (fun q : ℤ => (q : ℚ) / 32768) := by
  show (decodePcmBytes (decodeBase64Chars
      (String.mk (encodeBase64Chars ((samples.map floatToInt16).flatMap int16ToBytes))).toList)).map
        (fun q : ℤ => (q : ℚ) / 32768) = _
  rw [show (String.mk (encodeBase64Chars
      ((samples.map floatToInt16).flatMap int16ToBytes))).toList =
      encodeBase64Chars ((samples.map floatToInt16).flatMap int16ToBytes) from rfl]
  rw [decodeBase64_encodeBase64 _ (pcm_bytes_lt samples)]

lemma floatToInt16_zero : floatToInt16 0 = 0 := by
  unfold floatToInt16
  norm_num

lemma decodePcm_zero_replicate (n : ℕ) :
    (decodePcmBytes ((List.replicate n (0 : ℤ)).flatMap int16ToBytes)).map
      (fun q : ℤ => (q : ℚ) / 32768) = List.replicate n 0 := by
  induction n with
  | zero => rfl
  | succ k ih =>
      rw [List.replicate_succ, List.flatMap_cons]
      rw [show int16ToBytes 0 = [0, 0] from rfl]
      rw [List.cons_append, List.cons_append, List.nil_append]
      rw [show decodePcmBytes (0 :: 0 :: (List.replicate k (0 : ℤ)).flatMap int16ToBytes) =
          bytesToInt16 0 0 :: decodePcmBytes ((List.replicate k (0 : ℤ)).flatMap int16ToBytes)
          from rfl]
      rw [show bytesToInt16 0 0 = 0 from rfl]
      rw [List.map_cons, ih]
      rw [List.replicate_succ]
      norm_num

/-- C6: encoding float samples in [-1, 1] with `createPcmBlob` (scale and
clamp to signed 16-bit, little-endian, base64) and decoding the payload
with `decode` and `decodeAudioData` (int16 / 32768) at 24000 Hz mono
preserves the sample count and reproduces every sample within 1/32768; in
particular an all-zero 4096-sample chunk round-trips to all-zero samples of
the same length. -/
theorem pcm_roundtrip :
    (∀ (samples : List ℚ), (∀ s ∈ samples, -1 ≤ s ∧ s ≤ 1) →
      ((decodeAudioData (decode (createPcmBlob samples).data) 24000 1).samples).length =
        samples.length ∧
      List.Forall₂ (fun s d => |s - d| ≤ 1 / 32768) samples
        ((decodeAudioData (decode (createPcmBlob samples).data) 24000 1).samples)) ∧
    (decodeAudioData (decode (createPcmBlob (List.replicate 4096 0)).data) 24000 1).samples =
      List.replicate 4096 (0 : ℚ) := by
  constructor
  · intro samples h
    have hf := decodePcm_roundtrip samples h
    rw [pcm_pipeline_eq]
    exact ⟨hf.length_eq.symm, hf⟩
  · rw [pcm_pipeline_eq]
    rw [List.map_replicate, floatToInt16_zero]
    exact decodePcm_zero_replicate 4096

/-- C6 witness: the singleton sample 1/2 is in range and round-trips with
its length preserved. -/
theorem pcm_roundtrip_witness :
    (∀ s ∈ [(1 : ℚ)/2], -1 ≤ s ∧ s ≤ 1) ∧
    ((decodeAudioData (decode (createPcmBlob [(1 : ℚ)/2]).data) 24000 1).samples).length =
      ([(1 : ℚ)/2]).length :=
  ⟨by intro s hs; rw [List.mem_singleton] at hs; subst hs; norm_num,
   (pcm_roundtrip.1 [(1 : ℚ)/2]
     (by intro s hs; rw [List.mem_singleton] at hs; subst hs; norm_num)).1⟩

end VoiceAgent
